import Mathlib

/-!
Verification of the magnetic-orderings workflow construction
(`atomate/vasp/workflows/base/magnetism.py`, function
`get_wf_magnetic_orderings`, lines 93-489).

The Python function is embedded shallowly: the pymatgen/fireworks
collaborators (structure analyzer, primitive-cell reduction,
nearest-neighbour coordination query, combinatorial enumerator,
structure matcher) are oracles supplied as fields of `PipelineInput`;
everything the source file itself computes (sanitization, strategy
selection, constraint construction, the enumeration loop, duplicate
removal, provenance bookkeeping, workflow-graph assembly) is
translated here definition by definition.
-/

/-- A chemical species: element symbol plus a printable label
(pymatgen `Species.__str__`, e.g. "Ni2+"); `symbol` models
`Species.symbol` used at line 212. -/
structure Species where
  symbol : String
  label : String
deriving DecidableEq

/-- One site of a structure: species, fractional position, named
per-site properties (pymatgen `site.properties`, e.g. "magmom", "cn"),
and an optional scalar spin carried on the species
(`add_spin_by_site`). -/
structure Site where
  specie : Species
  frac : ℚ × ℚ × ℚ
  props : List (String × ℚ)
  spin : Option ℚ
deriving DecidableEq

instance : Inhabited Site := ⟨⟨⟨"", ""⟩, (0, 0, 0), [], Option.none⟩⟩

/-- A pymatgen `Structure`: an ordered sequence of sites. -/
structure Structure where
  sites : List Site
deriving DecidableEq

instance : Inhabited Structure := ⟨⟨[]⟩⟩

/-- First value bound to `name` in a property list
(`site.properties[name]`, as an `Option`). -/
def lookupProp (props : List (String × ℚ)) (name : String) : Option ℚ :=
  (props.find? (fun p => p.1 == name)).map (·.2)

/-- Set property `name` to `v` (pymatgen overwrites an existing key). -/
def setProp (props : List (String × ℚ)) (name : String) (v : ℚ) : List (String × ℚ) :=
  props.filter (fun p => p.1 ≠ name) ++ [(name, v)]

/-- `structure.add_site_property(name, vals)` (line 241): write the
i-th value onto the i-th site.  In the pipeline `vals` always has
exactly one entry per site. -/
def addSiteProperty (s : Structure) (name : String) (vals : List ℚ) : Structure :=
  ⟨(s.sites.zip vals).map (fun p => { p.1 with props := setProp p.1.props name p.2 })⟩

/-- `structure.remove_site_property(name)` (lines 200, 279). -/
def removeSiteProperty (s : Structure) (name : String) : Structure :=
  ⟨s.sites.map (fun st => { st with props := st.props.filter (fun p => p.1 ≠ name) })⟩

/-- `name in structure.site_properties` (line 199): some site carries
the property. -/
def hasSiteProperty (s : Structure) (name : String) : Bool :=
  s.sites.any (fun st => st.props.any (fun p => p.1 == name))

/-! ## Deduplication (lines 387-399)

The source loop, verbatim:

    structures_to_remove = []
    for idx, ordered_structure in enumerate(ordered_structures):
        if idx not in structures_to_remove:
            matches = [ordered_structure.matches(s) for s in ordered_structures]
            structures_to_remove += [match_idx for match_idx, match in enumerate(matches)
                                     if (match and idx != match_idx)]
    if len(structures_to_remove):
        ordered_structures = [s for idx, s in enumerate(ordered_structures)
                              if idx not in structures_to_remove]

`dedupAux` runs the outer loop over the still-to-process indices,
carrying the `structures_to_remove` accumulator. -/

/-- Index-level view of the matcher: `pool[i].matches(pool[j])`,
`false` out of range. -/
def matchesAt (mtch : Structure → Structure → Bool) (pool : List Structure)
    (i j : Nat) : Bool :=
  match pool.get? i, pool.get? j with
  | some x, some y => mtch x y
  | _, _ => false

/-- The outer `for idx ...` loop: `removed` is `structures_to_remove`,
`l` the remaining values of `idx`, `n` the pool length. -/
def dedupAux (M : Nat → Nat → Bool) (n : Nat) : List Nat → List Nat → List Nat
  | removed, [] => removed
  | removed, idx :: rest =>
    if removed.contains idx then dedupAux M n removed rest
    else dedupAux M n (removed ++ (List.range n).filter (fun m => M idx m && idx != m)) rest

/-- The final value of `structures_to_remove`. -/
def structuresToRemove (mtch : Structure → Structure → Bool)
    (pool : List Structure) : List Nat :=
  dedupAux (matchesAt mtch pool) pool.length [] (List.range pool.length)

/-- The whole duplicate-removal pass (lines 387-399): compute
`structures_to_remove`, and if nonempty keep only the entries whose
index is not listed. -/
def removeDuplicates (mtch : Structure → Structure → Bool)
    (pool : List Structure) : List Structure :=
  if (structuresToRemove mtch pool).length ≠ 0 then
    (pool.enum.filter (fun p => !((structuresToRemove mtch pool).contains p.1))).map Prod.snd
  else pool

/-! ## The rest of the pipeline -/

/-- The literal `0.5` of the source's order-parameter constraints, as
a pre-normalized rational (so that it evaluates by kernel reduction);
`oneHalf_eq_half` checks it is 1/2. -/
def oneHalf : ℚ := ⟨1, 2, by omega, Nat.coprime_one_left 2⟩

/-- pymatgen `Ordering` enum (`analyzer.ordering`). -/
inductive MagOrdering
  | FM
  | AFM
  | FiM
  | NM
  | Unknown
deriving DecidableEq

/-- `Ordering.value`, the string used in firework names (line 434). -/
def MagOrdering.value : MagOrdering → String
  | .FM => "FM"
  | .AFM => "AFM"
  | .FiM => "FiM"
  | .NM => "NM"
  | .Unknown => "Unknown"

/-- A python argument that is either one string or a list of strings
(`species_constraints` is passed both ways, lines 288 vs 341). -/
inductive StrOrList
  | one (s : String)
  | many (l : List String)
deriving DecidableEq

/-- A python argument that is either one integer or a list of integers
(`site_constraints` is passed both ways, lines 311 vs 316). -/
inductive IntOrList
  | one (v : Int)
  | many (l : List Int)
deriving DecidableEq

/-- `MagOrderParameterConstraint(...)` exactly as constructed by the
source: the order parameter plus the keyword arguments passed. -/
structure MagOrderParameterConstraint where
  orderParameter : ℚ
  speciesConstraints : Option StrOrList
  siteConstraintName : Option String
  siteConstraints : Option IntOrList
deriving DecidableEq

/-- `MagOrderingTransformation(mag_species_spin, order_parameter=...,
max_cell_size=..., timeout=...)`: the record handed to the external
combinatorial generator for one enumeration call. -/
structure MagOrderingTransformation where
  magSpeciesSpin : List (String × ℚ)
  orderParameter : List MagOrderParameterConstraint
  maxCellSize : Int
  timeout : Option Nat
deriving DecidableEq

instance : Inhabited MagOrderingTransformation := ⟨⟨[], [], 0, Option.none⟩⟩

/-- One entry of a `return_ranked_list` result: transformations return
either bare structures or dicts holding a "structure" key (lines
262-267). -/
inductive RankedItem
  | bare (s : Structure)
  | wrapped (s : Structure)
deriving DecidableEq

/-- `s["structure"] if isinstance(s, dict) else s` (line 266). -/
def itemStructure : RankedItem → Structure
  | .bare s => s
  | .wrapped s => s

/-- What `trans.apply_transformation(structure, return_ranked_list=n)`
may hand back: nothing (`None`), a single bare `Structure`, or a ranked
list. -/
inductive GenOutput
  | noResult
  | single (s : Structure)
  | ranked (items : List RankedItem)
deriving DecidableEq

/-- Python truthiness of the returned value (`if structures_to_add:`,
line 262): `None`, an empty list and an empty structure are falsy. -/
def genOutputTruthy : GenOutput → Bool
  | .noResult => false
  | .single s => !s.sites.isEmpty
  | .ranked items => !items.isEmpty

/-- `_add_structures` (lines 255-272): normalize the generator output
to bare structures and concatenate. -/
def addStructures (ordered : List Structure) (out : GenOutput) : List Structure :=
  if genOutputTruthy out then
    match out with
    | .noResult => ordered
    | .single s => ordered ++ [s]
    | .ranked items => ordered ++ items.map itemStructure
  else ordered

/-- Everything `get_wf_magnetic_orderings` obtains from its external
collaborators (pymatgen analyzers, primitive-cell reduction,
nearest-neighbour query, enumerator, structure matcher), supplied as
oracles:
* `isOrdered` — `structure.is_ordered` (line 175);
* `inputIsCollinear` — `input_analyzer.is_collinear` (line 191);
* `inputOrdering` — `input_analyzer.ordering` (line 409);
* `inputMatches` — `input_analyzer.matches_ordering` (line 412);
* `inputAnalyzerStructure` — `input_analyzer.structure` (line 414);
* `primitive` — `structure.get_primitive_structure(use_site_props=False)`
  (line 195);
* `magSpeciesSpin`, `typesMagSpecies`, `numMagSites`, `numUniqueSites` —
  the post-sanitization analyzer outputs (lines 210-214);
* `getCn` — `MinimumDistanceNN().get_cn` (lines 233-234);
* `fmStructure` — `analyzer.get_ferromagnetic_structure()` (line 275);
* `gen` — `trans.apply_transformation(structure, return_ranked_list=n)`;
* `mtch` — `Structure.matches` (line 391);
* `classify` — the per-candidate
  `CollinearMagneticStructureAnalyzer(...).ordering` (lines 432-434). -/
structure PipelineInput where
  isOrdered : Bool
  inputIsCollinear : Bool
  inputOrdering : MagOrdering
  inputMatches : Structure → Bool
  inputAnalyzerStructure : Structure
  primitive : Structure
  magSpeciesSpin : List (String × ℚ)
  typesMagSpecies : List Species
  numMagSites : Nat
  numUniqueSites : Nat
  getCn : Structure → Nat → Int
  fmStructure : Structure
  gen : MagOrderingTransformation → Structure → Nat → GenOutput
  mtch : Structure → Structure → Bool
  classify : Structure → MagOrdering

/-- Errors raised by the source function.  `unordered`, `nonCollinear`
and `enumerationTooLarge` are the `ValueError`s of lines 176, 192 and
220 (the spec's `UnorderedInputError` / `NonCollinearInputError` /
`EnumerationTooLargeError`); `zeroDivision` is the `ZeroDivisionError`
of `int(4/num_mag_sites)` at line 226 when there are no magnetic sites;
`unboundLocal` is python's `UnboundLocalError` raised at line 489 when
`debug_match_index` was never assigned. -/
inductive WFError
  | unordered
  | nonCollinear
  | enumerationTooLarge
  | zeroDivision
  | unboundLocal
deriving DecidableEq

/-- `max(1, int(4/num_mag_sites))` (line 226, the branch where no
truthy user value is given). -/
def defaultMaxCellSize (numMagSites : Nat) : Except WFError Int :=
  if numMagSites = 0 then .error .zeroDivision
  else .ok (max 1 (Int.ofNat (4 / numMagSites)))

/-- Line 226: `max_cell_size = max_cell_size if max_cell_size else
max(1, int(4/num_mag_sites))`.  Python truthiness: `None` *and the
integer 0* both fall back to the default. -/
def computeMaxCellSize (userMaxCellSize : Option Int) (numMagSites : Nat) :
    Except WFError Int :=
  match userMaxCellSize with
  | some v => if v ≠ 0 then .ok v else defaultMaxCellSize numMagSites
  | Option.none => defaultMaxCellSize numMagSites

/-- Lines 195-200: make the input primitive and strip a pre-existing
`magmom` site property. -/
def sanitizedStructure (inp : PipelineInput) : Structure :=
  if hasSiteProperty inp.primitive "magmom" then
    removeSiteProperty inp.primitive "magmom"
  else inp.primitive

/-- Lines 233-240: coordination numbers per site, zeroed on
non-magnetic sites. -/
def cnsOf (inp : PipelineInput) : List Int :=
  let s := sanitizedStructure inp
  let cns := (List.range s.sites.length).map (inp.getCn s)
  let isMagneticSites := s.sites.map (fun st => decide (st.specie ∈ inp.typesMagSpecies))
  (cns.zip isMagneticSites).map (fun p => if p.2 then p.1 else 0)

/-- Line 241: `structure.add_site_property('cn', cns)` — the source
mutates the sanitized structure in place; this is the structure value
every later stage sees. -/
def profiledStructure (inp : PipelineInput) : Structure :=
  addSiteProperty (sanitizedStructure inp) "cn" ((cnsOf inp).map (fun z : ℤ => (z : ℚ)))

/-- Line 242: `unique_cns = set(cns) - {0}` (modelled as a duplicate-free
list). -/
def uniqueCnsOf (inp : PipelineInput) : List Int :=
  ((cnsOf inp).filter (fun c => c ≠ 0)).dedup

/-- Line 212: `types_mag_elements = {sp.symbol for sp in
types_mag_species}`. -/
def typesMagElements (inp : PipelineInput) : List String :=
  (inp.typesMagSpecies.map (·.symbol)).dedup

/-- Lines 248-252: the ferrimagnetic heuristic.  A user override wins;
otherwise attempt ferrimagnetic orderings iff there is more than one
distinct environment or more than one distinct magnetic species. -/
def resolveAttemptFerrimagnetic (attemptFerrimagnetic : Option Bool)
    (uniqueCnCount numMagSpecies : Nat) : Bool :=
  match attemptFerrimagnetic with
  | some b => b
  | Option.none => decide (uniqueCnCount > 1 ∨ numMagSpecies > 1)

/-- Lines 274-279: the ferromagnetic seed — take the analyzer's
ferromagnetic structure, copy each site's `magmom` property to a
species spin, then drop the `magmom` property. -/
def spinFromMagmom (s : Structure) : Structure :=
  ⟨s.sites.map (fun st => { st with spin := lookupProp st.props "magmom" })⟩

/-- The first entry of `ordered_structures` (line 282). -/
def fmSeed (inp : PipelineInput) : Structure :=
  removeSiteProperty (spinFromMagmom inp.fmStructure) "magmom"

/-- Lines 285-294: the always-run antiferromagnetic call — one 0.5
constraint over all magnetic species jointly. -/
def afmTrans (inp : PipelineInput) (mcs : Int) (t : Option Nat) :
    MagOrderingTransformation :=
  { magSpeciesSpin := inp.magSpeciesSpin,
    orderParameter := [
      { orderParameter := oneHalf,
        speciesConstraints := some (.many (inp.typesMagSpecies.map (·.label))),
        siteConstraintName := Option.none,
        siteConstraints := Option.none }],
    maxCellSize := mcs, timeout := t }

/-- Lines 306-323: one ferrimagnetic-by-environment call — AFM (0.5) on
sites with coordination number `cn`, FM (1.0) on all other
environments. -/
def ferriEnvTrans (inp : PipelineInput) (mcs : Int) (t : Option Nat) (cn : Int) :
    MagOrderingTransformation :=
  { magSpeciesSpin := inp.magSpeciesSpin,
    orderParameter := [
      { orderParameter := oneHalf,
        speciesConstraints := Option.none,
        siteConstraintName := some "cn",
        siteConstraints := some (.one cn) },
      { orderParameter := 1,
        speciesConstraints := Option.none,
        siteConstraintName := some "cn",
        siteConstraints := some (.many ((uniqueCnsOf inp).filter (fun c => c ≠ cn))) }],
    maxCellSize := mcs, timeout := t }

/-- Lines 336-352: one ferrimagnetic-by-species call — AFM (0.5) on one
species, FM (1.0) on the remaining magnetic species. -/
def ferriSpeciesTrans (inp : PipelineInput) (mcs : Int) (t : Option Nat) (sp : Species) :
    MagOrderingTransformation :=
  { magSpeciesSpin := inp.magSpeciesSpin,
    orderParameter := [
      { orderParameter := oneHalf,
        speciesConstraints := some (.one sp.label),
        siteConstraintName := Option.none,
        siteConstraints := Option.none },
      { orderParameter := 1,
        speciesConstraints :=
          some (.many ((inp.typesMagSpecies.filter (fun s => s ≠ sp)).map (·.label))),
        siteConstraintName := Option.none,
        siteConstraints := Option.none }],
    maxCellSize := mcs, timeout := t }

/-- Lines 365-377: one antiferromagnetic-by-motif call — a single 0.5
constraint on one environment. -/
def motifTrans (inp : PipelineInput) (mcs : Int) (t : Option Nat) (cn : Int) :
    MagOrderingTransformation :=
  { magSpeciesSpin := inp.magSpeciesSpin,
    orderParameter := [
      { orderParameter := oneHalf,
        speciesConstraints := Option.none,
        siteConstraintName := some "cn",
        siteConstraints := some (.one cn) }],
    maxCellSize := mcs, timeout := t }

/-- Line 303: `attempt_ferrimagnetic and num_unique_sites > 1 and
len(types_mag_elements) == 1`.  Note: the guard tests the number of
symmetry-distinct magnetic *sites*, not the number of distinct
coordination environments. -/
def ferriByMotifActive (inp : PipelineInput) (attemptFerri : Bool) : Bool :=
  attemptFerri && decide (inp.numUniqueSites > 1) && decide ((typesMagElements inp).length = 1)

/-- Line 334: `attempt_ferrimagnetic and len(types_mag_species) > 1`. -/
def ferriBySpeciesActive (inp : PipelineInput) (attemptFerri : Bool) : Bool :=
  attemptFerri && decide (inp.typesMagSpecies.length > 1)

/-- The sequence of enumeration calls the function makes (lines
285-385): the AFM call always, then — the `if`/`elif` of lines 303/334
— either one ferrimagnetic-by-environment call per unique coordination
number or one ferrimagnetic-by-species call per magnetic species, then
optionally one AFM-by-motif call per unique coordination number.  The
constructed transformations do not depend on the evolving structure
pool, so the interleaved source loops are modelled as this call list
plus the fold `enumeratedPool` below. -/
def strategyCalls (inp : PipelineInput) (attemptFerri attemptAfmByMotif : Bool)
    (mcs : Int) (t : Option Nat) : List MagOrderingTransformation :=
  [afmTrans inp mcs t]
  ++ (if ferriByMotifActive inp attemptFerri then
        (uniqueCnsOf inp).map (ferriEnvTrans inp mcs t)
      else if ferriBySpeciesActive inp attemptFerri then
        inp.typesMagSpecies.map (ferriSpeciesTrans inp mcs t)
      else [])
  ++ (if attemptAfmByMotif then (uniqueCnsOf inp).map (motifTrans inp mcs t) else [])

/-- Lines 274-385: the unfiltered candidate pool — the ferromagnetic
seed followed by each call's results, merged via `_add_structures` in
call order. -/
def enumeratedPool (inp : PipelineInput) (attemptFerri attemptAfmByMotif : Bool)
    (numOrderings : Nat) (mcs : Int) (t : Option Nat) : List Structure :=
  (strategyCalls inp attemptFerri attemptAfmByMotif mcs t).foldl
    (fun pool trans => addStructures pool (inp.gen trans (profiledStructure inp) numOrderings))
    [fmSeed inp]

/-- The pool after duplicate removal (lines 387-399). -/
def dedupedPool (inp : PipelineInput) (attemptFerri attemptAfmByMotif : Bool)
    (numOrderings : Nat) (mcs : Int) (t : Option Nat) : List Structure :=
  removeDuplicates inp.mtch
    (enumeratedPool inp attemptFerri attemptAfmByMotif numOrderings mcs t)

/-- Lines 403-423: provenance bookkeeping.  Returns the (possibly
extended) pool, the `indexes` list, and `debug_match_index` as an
`Option` — `Option.none` models the python local never being assigned
(the non-magnetic branch). -/
def provenanceStep (inp : PipelineInput) (pool : List Structure) :
    List Structure × List Int × Option Int :=
  if inp.inputOrdering ≠ MagOrdering.NM then
    if !((pool.map inp.inputMatches).any id) then
      (pool ++ [inp.inputAnalyzerStructure],
       ((List.range pool.length).map Int.ofNat) ++ [-1],
       some (-1))
    else
      (pool, (List.range pool.length).map Int.ofNat,
       some (Int.ofNat ((pool.map inp.inputMatches).indexOf true)))
  else
    (pool, (List.range pool.length).map Int.ofNat, Option.none)

/-- A task node of the constructed workflow graph: `OptimizeFW`,
`StaticFW`, or the analysis firework, with dependencies given as
indices into the node list.  `parentStructure` is the
`parent_structure` payload of the analysis node (line 470). -/
inductive TaskRole
  | relax
  | static
  | aggregate
deriving DecidableEq

structure TaskNode where
  role : TaskRole
  name : String
  payload : Option Structure
  parents : List Nat
  parentStructure : Option Structure
deriving DecidableEq

instance : Inhabited TaskNode := ⟨⟨.relax, "", Option.none, [], Option.none⟩⟩

/-- Line 434: `"ordering {} {} -".format(indexes[idx], ordering.value)`. -/
def orderingName (idxVal : Int) (ord : MagOrdering) : String :=
  "ordering " ++ toString idxVal ++ " " ++ ord.value ++ " -"

/-- One iteration of the loop at lines 430-463: append the relax node,
append the static node depending on it (`parents=fws[-1]`), and record
the static node as an analysis parent. -/
def graphStep (classify : Structure → MagOrdering) (indexes : List Int)
    (acc : List TaskNode × List Nat) (p : Nat × Structure) :
    List TaskNode × List Nat :=
  let nm := orderingName (indexes.getD p.1 0) (classify p.2)
  let relaxIdx := acc.1.length
  let fws1 := acc.1 ++ [{ role := .relax, name := nm ++ " optimize",
                          payload := some p.2, parents := [],
                          parentStructure := Option.none }]
  let fws2 := fws1 ++ [{ role := .static, name := nm ++ " static",
                         payload := some p.2, parents := [relaxIdx],
                         parentStructure := Option.none }]
  (fws2, acc.2 ++ [fws1.length])

/-- Lines 427-477: the full node list — one relax/static chain per
pool entry, then the single analysis (aggregate) firework whose parents
are all the static nodes and whose payload carries `parent_structure`
(the profiled structure). -/
def buildGraph (classify : Structure → MagOrdering) (parentStructure : Structure)
    (pool : List Structure) (indexes : List Int) : List TaskNode :=
  let r := pool.enum.foldl (graphStep classify indexes) ([], [])
  r.1 ++ [{ role := .aggregate, name := "Magnetic Orderings Analysis",
            payload := Option.none, parents := r.2,
            parentStructure := some parentStructure }]

/-- What line 489 returns (plus the recorded enumeration-call trace). -/
structure WFOutput where
  fws : List TaskNode
  debugMatchIndex : Int
  orderedStructures : List Structure
  calls : List MagOrderingTransformation
deriving DecidableEq

instance : Inhabited WFOutput := ⟨⟨[], 0, [], []⟩⟩

/-- The whole of `get_wf_magnetic_orderings` (lines 93-489).  Control
flow follows the source: the two input checks, the unique-site ceiling,
the max-cell-size computation, candidate generation, duplicate removal,
provenance bookkeeping, graph construction, and the final `return`
which raises `UnboundLocalError` whenever `debug_match_index` was never
assigned (non-magnetic input). -/
def getWfMagneticOrderings (inp : PipelineInput) (attemptFerrimagnetic : Option Bool)
    (attemptAfmByMotif : Bool) (numOrderings : Nat) (maxCellSize : Option Int)
    (timeout : Option Nat) : Except WFError WFOutput :=
  if !inp.isOrdered then .error .unordered
  else if !inp.inputIsCollinear then .error .nonCollinear
  else if inp.numUniqueSites > 8 then .error .enumerationTooLarge
  else
    match computeMaxCellSize maxCellSize inp.numMagSites with
    | .error e => .error e
    | .ok mcs =>
      match provenanceStep inp
        (dedupedPool inp
          (resolveAttemptFerrimagnetic attemptFerrimagnetic
            (uniqueCnsOf inp).length inp.typesMagSpecies.length)
          attemptAfmByMotif numOrderings mcs timeout) with
      | (_, _, Option.none) => .error .unboundLocal
      | (pool, indexes, some dmi) =>
        .ok { fws := buildGraph inp.classify (profiledStructure inp) pool indexes,
              debugMatchIndex := dmi,
              orderedStructures := pool,
              calls := strategyCalls inp
                (resolveAttemptFerrimagnetic attemptFerrimagnetic
                  (uniqueCnsOf inp).length inp.typesMagSpecies.length)
                attemptAfmByMotif mcs timeout }

deriving instance DecidableEq for Except

/-! ## Concrete inputs used by witnesses and counterexamples

A rock-salt-like two-site cell: one magnetic Ni site (octahedral,
coordination number 6) and one non-magnetic O site. -/

def niSpecies : Species := ⟨"Ni", "Ni2+"⟩

def oSpecies : Species := ⟨"O", "O2-"⟩

def niSite : Site := ⟨niSpecies, (0, 0, 0), [], Option.none⟩

def oSite : Site := ⟨oSpecies, (oneHalf, oneHalf, oneHalf), [], Option.none⟩

def exPrimitive : Structure := ⟨[niSite, oSite]⟩

/-- The analyzer's ferromagnetic structure: every site carries a
`magmom` property. -/
def exFmStructure : Structure :=
  ⟨[{ niSite with props := [("magmom", 2)] }, { oSite with props := [("magmom", 0)] }]⟩

/-- Base oracle bundle: ordered, collinear, ferromagnetic input, one
magnetic site in one octahedral environment, a generator returning
nothing, and exact-equality structure matching. -/
def exInput : PipelineInput :=
  { isOrdered := true
    inputIsCollinear := true
    inputOrdering := .FM
    inputMatches := fun _ => true
    inputAnalyzerStructure := exPrimitive
    primitive := exPrimitive
    magSpeciesSpin := [("Ni2+", 2)]
    typesMagSpecies := [niSpecies]
    numMagSites := 1
    numUniqueSites := 1
    getCn := fun _ _ => 6
    fmStructure := exFmStructure
    gen := fun _ _ _ => .noResult
    mtch := fun a b => decide (a = b)
    classify := fun _ => .FM }

/-- Pool for the C6 witness: entries 0 and 2 are equal (hence match
under exact-equality matching); entry 1 differs. -/
def exDupPool : List Structure :=
  [⟨[{ niSite with spin := some 2 }]⟩,
   ⟨[{ niSite with spin := some (-2) }]⟩,
   ⟨[{ niSite with spin := some 2 }]⟩]

def exMatcher : Structure → Structure → Bool := fun a b => decide (a = b)

/-- Input with two magnetic sites in the primitive cell (the analyzer
count used for the default bound). -/
def exInputC8 : PipelineInput := { exInput with numMagSites := 2 }

def exOutC8 : WFOutput :=
  ((getWfMagneticOrderings exInputC8 (some false) false 10 Option.none Option.none).toOption).getD
    default

def exInputC5 : PipelineInput := { exInput with inputMatches := fun _ => false }

def exOutC5 : WFOutput :=
  ((getWfMagneticOrderings exInputC5 (some false) false 10 Option.none
    Option.none).toOption).getD default

/-- A call constrains spins by local environment iff one of its
constraints targets the `cn` site property. -/
def usesEnvConstraint (c : MagOrderingTransformation) : Bool :=
  c.orderParameter.any (fun oc => decide (oc.siteConstraintName = some "cn"))

/-- Single magnetic element, two symmetry-distinct magnetic sites, but
one single octahedral environment. -/
def exInputC4 : PipelineInput := { exInput with numUniqueSites := 2 }

/-! ## Graph-shape lemmas for the builder (claim C1) -/

/-- The `OptimizeFW` node appended for one pool entry (lines 450-454). -/
def relaxNodeOf (classify : Structure → MagOrdering) (indexes : List Int)
    (p : Nat × Structure) : TaskNode :=
  { role := .relax,
    name := orderingName (indexes.getD p.1 0) (classify p.2) ++ " optimize",
    payload := some p.2, parents := [], parentStructure := Option.none }

/-- The `StaticFW` node appended right after it, depending on it
(lines 457-461); `base` is the relax node's index. -/
def staticNodeOf (classify : Structure → MagOrdering) (indexes : List Int)
    (p : Nat × Structure) (base : Nat) : TaskNode :=
  { role := .static,
    name := orderingName (indexes.getD p.1 0) (classify p.2) ++ " static",
    payload := some p.2, parents := [base], parentStructure := Option.none }

/-- Closed form of the nodes the loop appends, two per entry. -/
def taskChain (classify : Structure → MagOrdering) (indexes : List Int) :
    List (Nat × Structure) → Nat → List TaskNode
  | [], _ => []
  | p :: rest, base =>
    relaxNodeOf classify indexes p :: staticNodeOf classify indexes p base ::
      taskChain classify indexes rest (base + 2)

/-- Closed form of `analysis_parents`: the static nodes' indices. -/
def staticIdxs : List (Nat × Structure) → Nat → List Nat
  | [], _ => []
  | _ :: rest, base => (base + 1) :: staticIdxs rest (base + 2)

/-- `a` is a dependency (parent) of node `b` in the node list. -/
def dependsOn (fws : List TaskNode) (a b : Nat) : Prop :=
  a ∈ (fws.getD b default).parents

def exClassify : Structure → MagOrdering := fun _ => .FM

/-! ## Theorems -/

namespace DedupLemmas

variable {M : Nat → Nat → Bool} {n : Nat}

theorem subset_dedupAux : ∀ (l removed : List Nat), removed ⊆ dedupAux M n removed l := by
  intro l
  induction l with
  | nil => intro removed; simp [dedupAux]
  | cons idx rest ih =>
    intro removed
    simp only [dedupAux]
    split
    · exact ih removed
    · exact List.Subset.trans (List.subset_append_left _ _) (ih _)

/-- Everything a processed-and-not-already-removed index matches goes
into the removal list: if `a` is still to be processed and survives,
every `b ≠ a` it matches is removed. -/
theorem mem_of_match : ∀ (l removed : List Nat) (a b : Nat),
    a ∈ l → a ∉ dedupAux M n removed l → b < n → a ≠ b → M a b = true →
    b ∈ dedupAux M n removed l := by
  intro l
  induction l with
  | nil => intro removed a b ha; simp at ha
  | cons idx rest ih =>
    intro removed a b ha hout hbn hab hM
    simp only [dedupAux] at hout ⊢
    by_cases hc : removed.contains idx
    · simp only [hc, if_true] at hout ⊢
      rcases List.mem_cons.mp ha with rfl | hrest
      · exact absurd (subset_dedupAux rest removed (by simpa using hc)) hout
      · exact ih removed a b hrest hout hbn hab hM
    · simp only [hc, if_false] at hout ⊢
      rcases List.mem_cons.mp ha with rfl | hrest
      · apply subset_dedupAux
        apply List.mem_append_right
        apply List.mem_filter.mpr
        refine ⟨List.mem_range.mpr hbn, ?_⟩
        simp [hM, hab]
      · exact ih _ a b hrest hout hbn hab hM

theorem dedupAux_append : ∀ (l₁ l₂ removed : List Nat),
    dedupAux M n removed (l₁ ++ l₂) = dedupAux M n (dedupAux M n removed l₁) l₂ := by
  intro l₁
  induction l₁ with
  | nil => intro l₂ removed; simp [dedupAux]
  | cons idx rest ih =>
    intro l₂ removed
    simp only [List.cons_append, dedupAux]
    split
    · exact ih l₂ removed
    · exact ih l₂ _

/-- If every remaining index is already removed or records no match,
the removal list does not grow. -/
theorem dedupAux_no_new : ∀ (l removed : List Nat),
    (∀ idx ∈ l, idx ∈ removed ∨
      (List.range n).filter (fun m => M idx m && idx != m) = []) →
    dedupAux M n removed l = removed := by
  intro l
  induction l with
  | nil => intro removed _; rfl
  | cons idx rest ih =>
    intro removed h
    have hrest : ∀ i ∈ rest, i ∈ removed ∨
        (List.range n).filter (fun m => M i m && i != m) = [] :=
      fun i hi => h i (List.mem_cons_of_mem _ hi)
    simp only [dedupAux]
    rcases h idx (List.mem_cons_self _ _) with hmem | hnil
    · have hc : removed.contains idx = true := by simpa using hmem
      simp only [hc, if_true]
      exact ih removed hrest
    · by_cases hc : removed.contains idx
      · simp only [hc, if_true]
        exact ih removed hrest
      · simp only [hc, if_false, hnil, List.append_nil]
        exact ih removed hrest

/-- Two surviving indices never match: the earlier-processed one would
have put the other on the removal list. -/
theorem survivors_nonmatch (a b : Nat)
    (ha : a < n) (hb : b < n)
    (haR : a ∉ dedupAux M n [] (List.range n))
    (hbR : b ∉ dedupAux M n [] (List.range n))
    (hab : a ≠ b) : M a b = false := by
  by_contra h
  have hM : M a b = true := by
    revert h; cases M a b <;> simp
  exact hbR (mem_of_match (List.range n) [] a b (List.mem_range.mpr ha) haR hb hab hM)

end DedupLemmas

/-- `matchesAt` agrees with the matcher on in-range indices. -/
theorem matchesAt_eq (mtch : Structure → Structure → Bool) (pool : List Structure)
    (a b : Nat) (ha : a < pool.length) (hb : b < pool.length) :
    matchesAt mtch pool a b = mtch pool[a] pool[b] := by
  simp [matchesAt, List.get?_eq_getElem?, List.getElem?_eq_getElem, ha, hb]

/-- `matchesAt` is `false` when the first index is out of range. -/
theorem matchesAt_oob (mtch : Structure → Structure → Bool) (pool : List Structure)
    (a b : Nat) (ha : pool.length ≤ a) :
    matchesAt mtch pool a b = false := by
  simp [matchesAt, List.get?_eq_getElem?, List.getElem?_eq_none ha]

/-- After one duplicate-removal pass, no two surviving entries match
(in either direction). -/
theorem pairwise_nonmatch (mtch : Structure → Structure → Bool) (pool : List Structure) :
    List.Pairwise (fun x y => mtch x y = false ∧ mtch y x = false)
      (removeDuplicates mtch pool) := by
  have key : ∀ a b (ha : a < pool.length) (hb : b < pool.length),
      a ∉ structuresToRemove mtch pool → b ∉ structuresToRemove mtch pool → a ≠ b →
      mtch pool[a] pool[b] = false := by
    intro a b ha hb haR hbR hab
    have := DedupLemmas.survivors_nonmatch (M := matchesAt mtch pool)
      (n := pool.length) a b ha hb haR hbR hab
    rwa [matchesAt_eq mtch pool a b ha hb] at this
  simp only [removeDuplicates]
  split
  · have henum : List.Pairwise
        (fun p q : Nat × Structure => p.1 ≠ q.1 ∧
          (p.1 ∉ structuresToRemove mtch pool → q.1 ∉ structuresToRemove mtch pool →
            mtch p.2 q.2 = false ∧ mtch q.2 p.2 = false)) pool.enum := by
      apply List.pairwise_iff_getElem.mpr
      intro i j hi hj hij
      rw [List.enum_length] at hi hj
      simp only [List.getElem_enum]
      exact ⟨Nat.ne_of_lt hij,
        fun hiR hjR => ⟨key i j hi hj hiR hjR (Nat.ne_of_lt hij),
          key j i hj hi hjR hiR (Nat.ne_of_gt hij)⟩⟩
    have hfilter := henum.filter
      (fun p : Nat × Structure => !((structuresToRemove mtch pool).contains p.1))
    apply List.pairwise_map.mpr
    apply hfilter.imp_of_mem
    intro p q hp hq hpq
    have hpR : p.1 ∉ structuresToRemove mtch pool := by
      have := (List.mem_filter.mp hp).2
      simpa using this
    have hqR : q.1 ∉ structuresToRemove mtch pool := by
      have := (List.mem_filter.mp hq).2
      simpa using this
    exact hpq.2 hpR hqR
  · rename_i hlen
    have hnil : structuresToRemove mtch pool = [] :=
      List.length_eq_zero.mp (by omega)
    apply List.pairwise_iff_getElem.mpr
    intro i j hi hj hij
    refine ⟨key i j hi hj (by simp [hnil]) (by simp [hnil]) (Nat.ne_of_lt hij),
      key j i hj hi (by simp [hnil]) (by simp [hnil]) (Nat.ne_of_gt hij)⟩

/-- On a pool whose entries pairwise fail to match, the removal pass is
the identity. -/
theorem removeDuplicates_of_pairwise (mtch : Structure → Structure → Bool)
    (t : List Structure)
    (hp : List.Pairwise (fun x y => mtch x y = false ∧ mtch y x = false) t) :
    removeDuplicates mtch t = t := by
  have hR : structuresToRemove mtch t = [] := by
    apply DedupLemmas.dedupAux_no_new
    intro idx _
    right
    apply List.filter_eq_nil_iff.mpr
    intro m hm
    by_cases hne : idx = m
    · simp [hne]
    · have hfalse : matchesAt mtch t idx m = false := by
        rcases Nat.lt_or_ge idx t.length with hi | hi
        · have hmlt : m < t.length := List.mem_range.mp hm
          rcases Nat.lt_trichotomy idx m with h | h | h
          · have := (List.pairwise_iff_getElem.mp hp) idx m hi hmlt h
            rw [matchesAt_eq mtch t idx m hi hmlt]
            exact this.1
          · exact absurd h hne
          · have := (List.pairwise_iff_getElem.mp hp) m idx hmlt hi h
            rw [matchesAt_eq mtch t idx m hi hmlt]
            exact this.2
        · exact matchesAt_oob mtch t idx m hi
      simp [hfalse]
  simp [removeDuplicates, hR]

/-- C7. Deduplication is idempotent: a second pass over the output of a
first duplicate-removal pass removes nothing, for every candidate pool
and every structure matcher. -/
theorem dedup_idempotent (mtch : Structure → Structure → Bool) (pool : List Structure) :
    removeDuplicates mtch (removeDuplicates mtch pool) = removeDuplicates mtch pool :=
  removeDuplicates_of_pairwise mtch _ (pairwise_nonmatch mtch pool)

theorem filter_range_eq_single {j : Nat} : ∀ {n : Nat}, j < n →
    (List.range n).filter (fun m => decide (m = j)) = [j] := by
  intro n
  induction n with
  | zero => intro h; omega
  | succ n ih =>
    intro h
    rw [List.range_succ, List.filter_append]
    rcases Nat.lt_or_ge j n with hj | hj
    · rw [ih hj]
      have hne : ¬(n = j) := by omega
      simp [hne]
    · have hjn : j = n := by omega
      subst hjn
      have hnil : (List.range j).filter (fun m => decide (m = j)) = [] := by
        apply List.filter_eq_nil_iff.mpr
        intro a ha
        have := List.mem_range.mp ha
        simp
        omega
      simp [hnil]

theorem enumFrom_filter_ne_map {α : Type} (j : Nat) :
    ∀ (l : List α) (m : Nat),
    ((l.enumFrom m).filter (fun p => decide (p.1 ≠ j))).map Prod.snd =
      if m ≤ j then l.eraseIdx (j - m) else l := by
  intro l
  induction l with
  | nil =>
    intro m
    split <;> simp
  | cons a t ih =>
    intro m
    rw [List.enumFrom_cons]
    by_cases hmj : m = j
    · subst hmj
      simp only [List.filter_cons]
      have hd : (decide ((m, a).1 ≠ m)) = false := by simp
      rw [hd]
      simp only [Bool.false_eq_true, if_false]
      rw [ih (m + 1)]
      rw [if_neg (by omega), if_pos (Nat.le_refl m)]
      simp
    · simp only [List.filter_cons]
      have hd : (decide ((m, a).1 ≠ j)) = true := by simp [hmj]
      rw [hd]
      simp only [if_true, List.map_cons]
      rw [ih (m + 1)]
      rcases Nat.lt_or_ge j m with h | h
      · rw [if_neg (by omega), if_neg (by omega)]
      · have hmlt : m < j := by omega
        rw [if_pos (by omega), if_pos (by omega)]
        have hsub : j - m = (j - (m + 1)) + 1 := by omega
        rw [hsub, List.eraseIdx_cons_succ]

/-- C6. If exactly one pair of pool entries (positions `i < j`) match
each other and nothing else matches, the removal pass deletes the
later-indexed entry `j` and keeps everything else in original order. -/
theorem dedup_keeps_earlier (mtch : Structure → Structure → Bool) (pool : List Structure)
    (i j : Nat) (hij : i < j) (hj : j < pool.length)
    (hpairs : ∀ a, a < pool.length → ∀ b, b < pool.length → a ≠ b →
      (matchesAt mtch pool a b = true ↔ (a = i ∧ b = j) ∨ (a = j ∧ b = i))) :
    removeDuplicates mtch pool = pool.eraseIdx j := by
  have hi : i < pool.length := Nat.lt_trans hij hj
  have hnomatch : ∀ idx, idx < pool.length → idx ≠ i → idx ≠ j →
      (List.range pool.length).filter
        (fun m => matchesAt mtch pool idx m && idx != m) = [] := by
    intro idx hidx hni hnj
    apply List.filter_eq_nil_iff.mpr
    intro m hm
    by_cases hme : idx = m
    · simp [hme]
    · have hfalse : matchesAt mtch pool idx m = false := by
        by_contra hMt
        have hMt : matchesAt mtch pool idx m = true := by
          revert hMt; cases matchesAt mtch pool idx m <;> simp
        rcases (hpairs idx hidx m (List.mem_range.mp hm) hme).mp hMt with
          ⟨h1, _⟩ | ⟨h1, _⟩
        · exact hni h1
        · exact hnj h1
      simp [hfalse]
  have hMij : matchesAt mtch pool i j = true :=
    (hpairs i hi j hj (Nat.ne_of_lt hij)).mpr (Or.inl ⟨rfl, rfl⟩)
  have hfilterI : (List.range pool.length).filter
      (fun m => matchesAt mtch pool i m && i != m) = [j] := by
    rw [List.filter_congr (q := fun m => decide (m = j)) ?hcongr]
    case hcongr =>
      intro a ha
      by_cases haj : a = j
      · subst haj
        simp [hMij, Nat.ne_of_lt hij]
      · by_cases hia : i = a
        · subst hia
          simp [haj]
        · have hfalse : matchesAt mtch pool i a = false := by
            by_contra hMt
            have hMt : matchesAt mtch pool i a = true := by
              revert hMt; cases matchesAt mtch pool i a <;> simp
            rcases (hpairs i hi a (List.mem_range.mp ha) hia).mp hMt with
              ⟨_, h2⟩ | ⟨h1, _⟩
            · exact haj h2
            · omega
          simp [hfalse, haj]
    exact filter_range_eq_single hj
  have hsplit : List.range pool.length =
      List.range i ++ (i :: List.range' (i + 1) (pool.length - i - 1)) := by
    have h1 : (pool.length - i) + i = pool.length := by omega
    calc List.range pool.length = List.range' 0 pool.length :=
          List.range_eq_range' pool.length
      _ = List.range' 0 ((pool.length - i) + i) := by rw [h1]
      _ = List.range' 0 i ++ List.range' (0 + i) (pool.length - i) :=
          (List.range'_append_1 0 i (pool.length - i)).symm
      _ = List.range i ++ (i :: List.range' (i + 1) (pool.length - i - 1)) := by
          have h2 : pool.length - i = (pool.length - i - 1) + 1 := by omega
          rw [Nat.zero_add, h2, List.range'_succ, ← List.range_eq_range']
          have h3 : pool.length - i - 1 + 1 - 1 = pool.length - i - 1 := by omega
          rw [h3]
  have hstep1 : dedupAux (matchesAt mtch pool) pool.length [] (List.range i) = [] := by
    apply DedupLemmas.dedupAux_no_new
    intro idx hidx
    right
    have := List.mem_range.mp hidx
    exact hnomatch idx (by omega) (by omega) (by omega)
  have hstep3 : dedupAux (matchesAt mtch pool) pool.length [j]
      (List.range' (i + 1) (pool.length - i - 1)) = [j] := by
    apply DedupLemmas.dedupAux_no_new
    intro idx hidx
    have hmem := List.mem_range'_1.mp hidx
    by_cases hjidx : idx = j
    · left; simp [hjidx]
    · right; exact hnomatch idx (by omega) (by omega) hjidx
  have hR : structuresToRemove mtch pool = [j] := by
    show dedupAux (matchesAt mtch pool) pool.length [] (List.range pool.length) = [j]
    rw [hsplit, DedupLemmas.dedupAux_append, hstep1]
    simp only [dedupAux]
    rw [if_neg (by simp), List.nil_append, hfilterI, hstep3]
  simp only [removeDuplicates, hR]
  rw [if_pos (by simp)]
  have hpred : ∀ p ∈ pool.enum, (!(([j] : List Nat).contains p.1)) = decide (p.1 ≠ j) := by
    intro p _
    by_cases h : p.1 = j <;> simp [h]
  rw [List.filter_congr hpred]
  have := enumFrom_filter_ne_map (α := Structure) j pool 0
  rw [if_pos (Nat.zero_le j), Nat.sub_zero] at this
  exact this

theorem oneHalf_eq_half : oneHalf = 1/2 := by
  rw [oneHalf, Rat.mk'_eq_divInt, Rat.divInt_eq_div]
  norm_num

/-- C9. With no user override, ferrimagnetic enumeration is enabled iff
more than one distinct coordination environment or more than one
distinct magnetic species exists; the decision is the pure function
`resolveAttemptFerrimagnetic` of exactly these counts. -/
theorem ferrimagnetic_heuristic_default (uniqueCnCount numMagSpecies : Nat) :
    resolveAttemptFerrimagnetic Option.none uniqueCnCount numMagSpecies = true ↔
      (uniqueCnCount > 1 ∨ numMagSpecies > 1) := by
  simp [resolveAttemptFerrimagnetic]

/-- C10. With more than 8 symmetry-distinct magnetic sites (and the two
earlier input checks passing), the entry point fails with the
enumeration-too-large error; the result is the same for every external
generator, i.e. no enumeration call is consulted and no graph is
produced. -/
theorem too_many_unique_sites_aborts (inp : PipelineInput) (af : Option Bool)
    (afm : Bool) (n : Nat) (mcs : Option Int) (t : Option Nat)
    (h1 : inp.isOrdered = true) (h2 : inp.inputIsCollinear = true)
    (h3 : inp.numUniqueSites > 8) :
    getWfMagneticOrderings inp af afm n mcs t = .error .enumerationTooLarge ∧
    ∀ g, getWfMagneticOrderings { inp with gen := g } af afm n mcs t =
      .error .enumerationTooLarge := by
  constructor
  · simp [getWfMagneticOrderings, h1, h2, h3]
  · intro g
    simp [getWfMagneticOrderings, h1, h2, h3]

theorem too_many_unique_sites_aborts_witness :
    getWfMagneticOrderings { exInput with numUniqueSites := 9 }
      Option.none false 10 Option.none Option.none = .error .enumerationTooLarge :=
  (too_many_unique_sites_aborts { exInput with numUniqueSites := 9 }
    Option.none false 10 Option.none Option.none rfl rfl (by decide)).1

/-- C2 (code bug). On an input whose pre-enumeration analysis is
non-magnetic, `debug_match_index` is never assigned, so the `return` at
line 489 raises `UnboundLocalError` instead of returning the assembled
workflow: evaluated here on a concrete non-magnetic input (the module's
own `__main__` NiO demo takes exactly this path). -/
theorem nm_input_raises_unbound_local :
    getWfMagneticOrderings { exInput with inputOrdering := MagOrdering.NM }
      Option.none false 10 Option.none Option.none = .error .unboundLocal := by
  decide

theorem dedup_keeps_earlier_witness :
    removeDuplicates exMatcher exDupPool = exDupPool.eraseIdx 2 :=
  dedup_keeps_earlier exMatcher exDupPool 0 2 (by decide) (by decide) (by decide)

/-- Inversion of a successful run: the max-cell-size computation
succeeded, the recorded calls are the strategy calls for that bound,
and the returned pool/index/graph come from the provenance step and
graph builder. -/
theorem getWf_ok_inv (inp : PipelineInput) (af : Option Bool) (afm : Bool)
    (n : Nat) (mcs? : Option Int) (t : Option Nat) (out : WFOutput)
    (hok : getWfMagneticOrderings inp af afm n mcs? t = .ok out) :
    ∃ m, computeMaxCellSize mcs? inp.numMagSites = .ok m ∧
      out.calls = strategyCalls inp
        (resolveAttemptFerrimagnetic af (uniqueCnsOf inp).length inp.typesMagSpecies.length)
        afm m t ∧
      ∃ indexes dmi,
        provenanceStep inp
          (dedupedPool inp
            (resolveAttemptFerrimagnetic af (uniqueCnsOf inp).length inp.typesMagSpecies.length)
            afm n m t) = (out.orderedStructures, indexes, some dmi) ∧
        out.debugMatchIndex = dmi ∧
        out.fws = buildGraph inp.classify (profiledStructure inp) out.orderedStructures indexes := by
  simp only [getWfMagneticOrderings] at hok
  split at hok
  · exact absurd hok (by simp)
  · split at hok
    · exact absurd hok (by simp)
    · split at hok
      · exact absurd hok (by simp)
      · split at hok
        · exact absurd hok (by simp)
        · split at hok
          · exact absurd hok (by simp)
          · rename_i scrut1 mcs hmcs scrut2 pool indexes dmi hprov
            have hout := (Except.ok.injEq _ _).mp hok
            refine ⟨mcs, hmcs, ?_, indexes, dmi, ?_, ?_, ?_⟩
            · rw [← hout]
            · rw [← hout]
              exact hprov
            · rw [← hout]
            · rw [← hout]

/-- Every transformation in the strategy-call list is built with the
same `max_cell_size` bound. -/
theorem strategyCalls_maxCellSize (inp : PipelineInput) (afR afm : Bool)
    (m : Int) (t : Option Nat) :
    ∀ c ∈ strategyCalls inp afR afm m t, c.maxCellSize = m := by
  intro c hc
  simp only [strategyCalls, List.mem_append, List.mem_singleton] at hc
  rcases hc with (hc | hc) | hc
  · subst hc; rfl
  · split at hc
    · rcases List.mem_map.mp hc with ⟨cn, _, rfl⟩; rfl
    · split at hc
      · rcases List.mem_map.mp hc with ⟨sp, _, rfl⟩; rfl
      · simp at hc
  · split at hc
    · rcases List.mem_map.mp hc with ⟨cn, _, rfl⟩; rfl
    · simp at hc

/-- C8 (amended).  On every successful run, every enumeration call uses
the single bound computed at line 226; that bound equals the
user-supplied `max_cell_size` whenever a *nonzero* value was supplied,
and equals `max(1, floor(4 / num_mag_sites))` when it was left unset
(a user-supplied 0 also falls back to this default — see the
counterexample `max_cell_size_zero_ignored`). -/
theorem max_cell_size_used (inp : PipelineInput) (af : Option Bool) (afm : Bool)
    (n : Nat) (mcs? : Option Int) (t : Option Nat) (out : WFOutput) (m : Int)
    (hok : getWfMagneticOrderings inp af afm n mcs? t = .ok out)
    (hmcs : computeMaxCellSize mcs? inp.numMagSites = .ok m) :
    (∀ c ∈ out.calls, c.maxCellSize = m) ∧
    (∀ v, mcs? = some v → v ≠ 0 → m = v) ∧
    (mcs? = Option.none → 0 < inp.numMagSites →
      m = max 1 (Int.ofNat (4 / inp.numMagSites))) := by
  obtain ⟨m', hm', hcalls, _⟩ := getWf_ok_inv inp af afm n mcs? t out hok
  have hmm : m' = m := Except.ok.inj (hm'.symm.trans hmcs)
  subst hmm
  refine ⟨?_, ?_, ?_⟩
  · intro c hcmem
    rw [hcalls] at hcmem
    exact strategyCalls_maxCellSize inp _ afm m' t c hcmem
  · intro v hv hvne
    subst hv
    simp only [computeMaxCellSize] at hmcs
    rw [if_pos hvne] at hmcs
    exact (Except.ok.inj hmcs).symm
  · intro hnone hpos
    subst hnone
    simp only [computeMaxCellSize, defaultMaxCellSize] at hmcs
    rw [if_neg (by omega)] at hmcs
    exact (Except.ok.inj hmcs).symm

theorem max_cell_size_used_witness :
    (∀ c ∈ exOutC8.calls, c.maxCellSize = 2) ∧
    (Option.none = (Option.none : Option Int) → 0 < exInputC8.numMagSites →
      (2 : ℤ) = max 1 (Int.ofNat (4 / exInputC8.numMagSites))) := by
  have h := max_cell_size_used exInputC8 (some false) false 10 Option.none Option.none
    exOutC8 2 (by decide) (by decide)
  exact ⟨h.1, h.2.2⟩

/-- C5.  On every successful run whose input is magnetic and matches no
entry of the deduplicated pool, the analyzer's input structure is
appended to the pool, the provenance index is the sentinel −1, and the
final pool is one longer than the deduplicated pool. -/
theorem provenance_append_sentinel (inp : PipelineInput) (af : Option Bool) (afm : Bool)
    (n : Nat) (mcs? : Option Int) (t : Option Nat) (out : WFOutput) (m : Int)
    (hok : getWfMagneticOrderings inp af afm n mcs? t = .ok out)
    (hmcs : computeMaxCellSize mcs? inp.numMagSites = .ok m)
    (hmag : inp.inputOrdering ≠ MagOrdering.NM)
    (hnomatch : ∀ s ∈ dedupedPool inp
        (resolveAttemptFerrimagnetic af (uniqueCnsOf inp).length inp.typesMagSpecies.length)
        afm n m t, inp.inputMatches s = false) :
    out.orderedStructures =
      dedupedPool inp (resolveAttemptFerrimagnetic af (uniqueCnsOf inp).length
        inp.typesMagSpecies.length) afm n m t ++ [inp.inputAnalyzerStructure] ∧
    out.debugMatchIndex = -1 ∧
    out.orderedStructures.length =
      (dedupedPool inp (resolveAttemptFerrimagnetic af (uniqueCnsOf inp).length
        inp.typesMagSpecies.length) afm n m t).length + 1 := by
  obtain ⟨m', hm', _, indexes, dmi, hprov, hdmi, _⟩ := getWf_ok_inv inp af afm n mcs? t out hok
  have hmm : m' = m := Except.ok.inj (hm'.symm.trans hmcs)
  subst hmm
  have hany : ((dedupedPool inp
      (resolveAttemptFerrimagnetic af (uniqueCnsOf inp).length inp.typesMagSpecies.length)
      afm n m' t).map inp.inputMatches).any id = false := by
    apply List.any_eq_false.mpr
    intro b hb
    rcases List.mem_map.mp hb with ⟨s, hs, rfl⟩
    simp [hnomatch s hs]
  rw [provenanceStep, if_pos hmag, hany] at hprov
  simp only [Bool.not_false, if_true, Prod.mk.injEq, Option.some.injEq] at hprov
  obtain ⟨h1, _, h3⟩ := hprov
  refine ⟨h1.symm, ?_, ?_⟩
  · rw [hdmi, ← h3]
  · rw [← h1]
    simp

theorem provenance_append_sentinel_witness :
    exOutC5.debugMatchIndex = -1 ∧
    exOutC5.orderedStructures.length =
      (dedupedPool exInputC5 false false 10 4 Option.none).length + 1 := by
  have h := provenance_append_sentinel exInputC5 (some false) false 10 Option.none Option.none
    exOutC5 4 (by decide) (by decide) (by decide) (by decide)
  exact ⟨h.2.1, h.2.2⟩

theorem find?_filter_key_ne (props : List (String × ℚ)) (name k : String)
    (hk : k ≠ name) :
    (props.filter (fun p => p.1 ≠ name)).find? (fun p => p.1 == k) =
      props.find? (fun p => p.1 == k) := by
  induction props with
  | nil => rfl
  | cons hd tl ih =>
    rw [List.filter_cons]
    by_cases h1 : hd.1 = name
    · have hq : (decide (hd.1 ≠ name)) = false := by simp [h1]
      have h2 : (hd.1 == k) = false := by
        simp [h1]
        exact fun h => hk h.symm
      rw [hq]
      simp only [Bool.false_eq_true, if_false]
      rw [ih, List.find?_cons, h2]
    · have hq : (decide (hd.1 ≠ name)) = true := by simp [h1]
      rw [hq]
      simp only [if_true]
      rw [List.find?_cons, List.find?_cons]
      cases h2 : (hd.1 == k)
      · exact ih
      · rfl

/-- Setting one property leaves every other property's lookup
unchanged. -/
theorem lookupProp_setProp_ne (props : List (String × ℚ)) (name k : String) (v : ℚ)
    (hk : k ≠ name) :
    lookupProp (setProp props name v) k = lookupProp props k := by
  have h2 : ((name, v).1 == k) = false := by
    simp
    exact fun h => hk h.symm
  have h3 : (setProp props name v).find? (fun p => p.1 == k) =
      props.find? (fun p => p.1 == k) := by
    rw [setProp, List.find?_append, find?_filter_key_ne props name k hk]
    simp [List.find?_cons, h2]
  rw [lookupProp, lookupProp, h3]

theorem cnsOf_length (inp : PipelineInput) :
    (cnsOf inp).length = (sanitizedStructure inp).sites.length := by
  simp only [cnsOf, List.length_map, List.length_zip, List.length_range]
  omega

/-- C3 (amended).  The Environment Profiler mutates the sanitized
input only by writing the `cn` site property: site count, species,
fractional positions, spins and every per-site property other than
`cn` are identical before and after. -/
theorem profiler_preserves_all_but_cn (inp : PipelineInput) (i : Nat) (k : String) :
    (profiledStructure inp).sites.length = (sanitizedStructure inp).sites.length ∧
    ((profiledStructure inp).sites.getD i default).specie =
      ((sanitizedStructure inp).sites.getD i default).specie ∧
    ((profiledStructure inp).sites.getD i default).frac =
      ((sanitizedStructure inp).sites.getD i default).frac ∧
    ((profiledStructure inp).sites.getD i default).spin =
      ((sanitizedStructure inp).sites.getD i default).spin ∧
    (k ≠ "cn" →
      lookupProp ((profiledStructure inp).sites.getD i default).props k =
        lookupProp ((sanitizedStructure inp).sites.getD i default).props k) := by
  have hlen : ((cnsOf inp).map (fun z : ℤ => (z : ℚ))).length =
      (sanitizedStructure inp).sites.length := by
    rw [List.length_map, cnsOf_length]
  by_cases hi : i < (sanitizedStructure inp).sites.length
  · have hi2 : i < ((cnsOf inp).map (fun z : ℤ => (z : ℚ))).length := by omega
    have h1 : (sanitizedStructure inp).sites[i]? =
        some ((sanitizedStructure inp).sites[i]) := List.getElem?_eq_getElem hi
    have h2 : ((cnsOf inp).map (fun z : ℤ => (z : ℚ)))[i]? =
        some (((cnsOf inp).map (fun z : ℤ => (z : ℚ)))[i]) :=
      List.getElem?_eq_getElem hi2
    have hzipi : ((sanitizedStructure inp).sites.zip
        ((cnsOf inp).map (fun z : ℤ => (z : ℚ))))[i]? =
        some ((sanitizedStructure inp).sites[i],
          ((cnsOf inp).map (fun z : ℤ => (z : ℚ)))[i]) :=
      List.getElem?_zip_eq_some.mpr ⟨h1, h2⟩
    have hget : (profiledStructure inp).sites[i]? =
        some { (sanitizedStructure inp).sites[i] with
               props := setProp ((sanitizedStructure inp).sites[i]).props "cn"
                 (((cnsOf inp).map (fun z : ℤ => (z : ℚ)))[i]) } := by
      simp only [profiledStructure, addSiteProperty, List.getElem?_map, hzipi]
      rfl
    refine ⟨?_, ?_, ?_, ?_, ?_⟩
    · simp [profiledStructure, addSiteProperty, hlen]
    · simp [List.getD_eq_getElem?_getD, hget, h1]
    · simp [List.getD_eq_getElem?_getD, hget, h1]
    · simp [List.getD_eq_getElem?_getD, hget, h1]
    · intro hk
      simp only [List.getD_eq_getElem?_getD, hget, h1, Option.getD_some]
      exact lookupProp_setProp_ne _ "cn" k _ hk
  · have h1 : (sanitizedStructure inp).sites[i]? = Option.none :=
      List.getElem?_eq_none (by omega)
    have h2 : (profiledStructure inp).sites[i]? = Option.none := by
      apply List.getElem?_eq_none
      simp [profiledStructure, addSiteProperty, hlen]
      omega
    refine ⟨?_, ?_, ?_, ?_, ?_⟩
    · simp [profiledStructure, addSiteProperty, hlen]
    · simp [List.getD_eq_getElem?_getD, h1, h2]
    · simp [List.getD_eq_getElem?_getD, h1, h2]
    · simp [List.getD_eq_getElem?_getD, h1, h2]
    · intro _
      simp [List.getD_eq_getElem?_getD, h1, h2]

theorem profiler_preserves_witness :
    ((profiledStructure exInput).sites.getD 0 default).specie =
      ((sanitizedStructure exInput).sites.getD 0 default).specie ∧
    lookupProp ((profiledStructure exInput).sites.getD 0 default).props "magmom" =
      lookupProp ((sanitizedStructure exInput).sites.getD 0 default).props "magmom" := by
  have h := profiler_preserves_all_but_cn exInput 0 "magmom"
  exact ⟨h.2.1, h.2.2.2.2 (by decide)⟩

/-- C3 counterexample: the structure handed to later stages (and stored
as the aggregate node's `parent_structure`) is *not* the sanitizer's
output — the Environment Profiler has written a `cn` site property onto
it in place, so the per-site properties differ. -/
theorem profiler_mutates_structure :
    lookupProp ((profiledStructure exInput).sites.getD 0 default).props "cn" = some 6 ∧
    lookupProp ((sanitizedStructure exInput).sites.getD 0 default).props "cn" =
      Option.none ∧
    profiledStructure exInput ≠ sanitizedStructure exInput ∧
    (((getWfMagneticOrderings exInput (some false) false 10 Option.none
        Option.none).toOption.getD default).fws.getLast?).map (·.parentStructure) =
      some (some (profiledStructure exInput)) := by
  decide

/-- C4 (amended).  With motif-AFM off, by-environment enumeration calls
happen iff the line-303 guard holds — ferrimagnetic active AND more
than one symmetry-distinct magnetic *site* AND exactly one magnetic
element (not: more than one distinct environment); when it holds there
is exactly one call per unique environment value, each carrying the two
joint constraints (0.5 on that environment, 1.0 on all others). -/
theorem ferri_env_branch (inp : PipelineInput) (attemptFerri : Bool) (m : Int)
    (t : Option Nat) :
    ((strategyCalls inp attemptFerri false m t).filter usesEnvConstraint ≠ [] ↔
      (ferriByMotifActive inp attemptFerri = true ∧ uniqueCnsOf inp ≠ [])) ∧
    (ferriByMotifActive inp attemptFerri = true →
      (strategyCalls inp attemptFerri false m t).filter usesEnvConstraint =
        (uniqueCnsOf inp).map (ferriEnvTrans inp m t)) ∧
    (ferriByMotifActive inp attemptFerri = true ↔
      attemptFerri = true ∧ inp.numUniqueSites > 1 ∧ (typesMagElements inp).length = 1) ∧
    (∀ cn, (ferriEnvTrans inp m t cn).orderParameter =
      [{ orderParameter := oneHalf, speciesConstraints := Option.none,
         siteConstraintName := some "cn", siteConstraints := some (.one cn) },
       { orderParameter := 1, speciesConstraints := Option.none,
         siteConstraintName := some "cn",
         siteConstraints := some (.many ((uniqueCnsOf inp).filter (fun c => c ≠ cn))) }]) := by
  have hafm : usesEnvConstraint (afmTrans inp m t) = false := rfl
  have henv : ∀ cn, usesEnvConstraint (ferriEnvTrans inp m t cn) = true := fun _ => rfl
  have hsp : ∀ sp, usesEnvConstraint (ferriSpeciesTrans inp m t sp) = false := fun _ => rfl
  have hfilter : ∀ (l : List Int),
      (l.map (ferriEnvTrans inp m t)).filter usesEnvConstraint =
        l.map (ferriEnvTrans inp m t) := by
    intro l
    apply List.filter_eq_self.mpr
    intro c hc
    rcases List.mem_map.mp hc with ⟨cn, _, rfl⟩
    exact henv cn
  have hfilterSp : ∀ (l : List Species),
      (l.map (ferriSpeciesTrans inp m t)).filter usesEnvConstraint = [] := by
    intro l
    apply List.filter_eq_nil_iff.mpr
    intro c hc
    rcases List.mem_map.mp hc with ⟨sp, _, rfl⟩
    simp [hsp sp]
  refine ⟨?_, ?_, ?_, fun _ => rfl⟩
  · cases hb : ferriByMotifActive inp attemptFerri
    · simp only [strategyCalls, hb, if_false, Bool.false_eq_true, List.filter_append,
        List.filter_cons, hafm, List.filter_nil]
      split
      · rename_i hsb
        simp [hfilterSp, List.map_eq_nil_iff]
      · simp
    · simp only [strategyCalls, hb, if_true, List.filter_append, List.filter_cons, hafm,
        List.filter_nil, hfilter]
      simp [List.map_eq_nil_iff]
  · intro hb
    simp only [strategyCalls, hb, if_true, List.filter_append, List.filter_cons, hafm,
      List.filter_nil, hfilter]
    simp
  · simp only [ferriByMotifActive, Bool.and_eq_true, decide_eq_true_iff]
    tauto

/-- C4 counterexample: ferrimagnetic enumeration active, exactly one
distinct coordination environment — the claim says the by-environment
strategy must not run, yet the run performs a by-environment
enumeration call (the guard tests distinct *sites*, not distinct
environments). -/
theorem ferri_env_single_env_runs :
    resolveAttemptFerrimagnetic (some true) (uniqueCnsOf exInputC4).length
      exInputC4.typesMagSpecies.length = true ∧
    (uniqueCnsOf exInputC4).length = 1 ∧
    ((getWfMagneticOrderings exInputC4 (some true) false 10 Option.none
        Option.none).toOption.getD default).calls.filter usesEnvConstraint ≠ [] := by
  decide

theorem ferri_env_branch_witness :
    (strategyCalls exInputC4 true false 4 Option.none).filter usesEnvConstraint =
      (uniqueCnsOf exInputC4).map (ferriEnvTrans exInputC4 4 Option.none) :=
  (ferri_env_branch exInputC4 true 4 Option.none).2.1 (by decide)

theorem foldl_graphStep (classify : Structure → MagOrdering) (indexes : List Int) :
    ∀ (l : List (Nat × Structure)) (fws0 : List TaskNode) (aps0 : List Nat),
    l.foldl (graphStep classify indexes) (fws0, aps0) =
      (fws0 ++ taskChain classify indexes l fws0.length,
       aps0 ++ staticIdxs l fws0.length) := by
  intro l
  induction l with
  | nil => intro fws0 aps0; simp [taskChain, staticIdxs]
  | cons p rest ih =>
    intro fws0 aps0
    rw [List.foldl_cons]
    have hstep : graphStep classify indexes (fws0, aps0) p =
        (fws0 ++ [relaxNodeOf classify indexes p,
                  staticNodeOf classify indexes p fws0.length],
         aps0 ++ [fws0.length + 1]) := by
      simp [graphStep, relaxNodeOf, staticNodeOf]
    rw [hstep, ih]
    have hlen : (fws0 ++ [relaxNodeOf classify indexes p,
        staticNodeOf classify indexes p fws0.length]).length = fws0.length + 2 := by
      simp
    rw [hlen]
    simp [taskChain, staticIdxs]

theorem taskChain_length (classify : Structure → MagOrdering) (indexes : List Int) :
    ∀ (l : List (Nat × Structure)) (base : Nat),
    (taskChain classify indexes l base).length = 2 * l.length := by
  intro l
  induction l with
  | nil => intro base; rfl
  | cons p rest ih =>
    intro base
    simp only [taskChain, List.length_cons, ih, List.length_cons]
    omega

theorem staticIdxs_mem : ∀ (l : List (Nat × Structure)) (base k : Nat),
    k ∈ staticIdxs l base ↔ ∃ i, i < l.length ∧ k = base + 2 * i + 1 := by
  intro l
  induction l with
  | nil => intro base k; simp [staticIdxs]
  | cons p rest ih =>
    intro base k
    simp only [staticIdxs, List.mem_cons, ih (base + 2), List.length_cons]
    constructor
    · rintro (rfl | ⟨i, hi, rfl⟩)
      · exact ⟨0, by omega, by omega⟩
      · exact ⟨i + 1, by omega, by omega⟩
    · rintro ⟨i, hi, rfl⟩
      cases i with
      | zero => left; omega
      | succ j => right; exact ⟨j, by omega, by omega⟩

theorem taskChain_getD (classify : Structure → MagOrdering) (indexes : List Int) :
    ∀ (l : List (Nat × Structure)) (base i : Nat), i < l.length →
    (taskChain classify indexes l base).getD (2 * i) default =
      relaxNodeOf classify indexes (l.getD i (0, default)) ∧
    (taskChain classify indexes l base).getD (2 * i + 1) default =
      staticNodeOf classify indexes (l.getD i (0, default)) (base + 2 * i) := by
  intro l
  induction l with
  | nil => intro base i hi; simp at hi
  | cons p rest ih =>
    intro base i hi
    cases i with
    | zero => refine ⟨?_, ?_⟩ <;> simp [taskChain]
    | succ j =>
      have e1 : 2 * (j + 1) = 2 * j + 1 + 1 := by omega
      rw [e1]
      have e4 : base + (2 * j + 1 + 1) = (base + 2) + 2 * j := by omega
      rw [e4]
      simp only [taskChain, List.getD_cons_succ]
      exact ih (base + 2) j (Nat.lt_of_succ_lt_succ (by simpa using hi))

theorem taskChain_role_ne_agg (classify : Structure → MagOrdering) (indexes : List Int) :
    ∀ (l : List (Nat × Structure)) (base k : Nat), k < 2 * l.length →
    ((taskChain classify indexes l base).getD k default).role ≠ .aggregate := by
  intro l
  induction l with
  | nil => intro base k hk; simp at hk
  | cons p rest ih =>
    intro base k hk
    cases k with
    | zero => simp [taskChain, relaxNodeOf]
    | succ k1 =>
      cases k1 with
      | zero => simp [taskChain, staticNodeOf]
      | succ m =>
        simp only [taskChain, List.getD_cons_succ]
        exact ih (base + 2) m (by simp at hk; omega)

theorem buildGraph_eq (classify : Structure → MagOrdering) (ps : Structure)
    (pool : List Structure) (indexes : List Int) :
    buildGraph classify ps pool indexes =
      taskChain classify indexes pool.enum 0 ++
      [{ role := .aggregate, name := "Magnetic Orderings Analysis",
         payload := Option.none, parents := staticIdxs pool.enum 0,
         parentStructure := some ps }] := by
  simp only [buildGraph]
  rw [foldl_graphStep]
  simp

/-- C1.  Shape of the workflow graph built for any final pool: one
relax and one static node per candidate (the static node's only
dependency being its relax node), a single aggregate node whose parents
include every static node and which carries the parent structure, no
other aggregate node, reachability of the aggregate node from every
other node, and acyclicity of the dependency relation. -/
theorem graph_invariants (classify : Structure → MagOrdering) (ps : Structure)
    (pool : List Structure) (indexes : List Int) :
    (buildGraph classify ps pool indexes).length = 2 * pool.length + 1 ∧
    (∀ i, i < pool.length →
      ((buildGraph classify ps pool indexes).getD (2 * i) default).role = .relax ∧
      ((buildGraph classify ps pool indexes).getD (2 * i) default).parents = [] ∧
      ((buildGraph classify ps pool indexes).getD (2 * i) default).payload =
        some (pool.getD i default) ∧
      ((buildGraph classify ps pool indexes).getD (2 * i + 1) default).role = .static ∧
      ((buildGraph classify ps pool indexes).getD (2 * i + 1) default).parents = [2 * i] ∧
      ((buildGraph classify ps pool indexes).getD (2 * i + 1) default).payload =
        some (pool.getD i default)) ∧
    ((buildGraph classify ps pool indexes).getD (2 * pool.length) default).role =
      .aggregate ∧
    ((buildGraph classify ps pool indexes).getD (2 * pool.length) default).parentStructure =
      some ps ∧
    (∀ i, i < pool.length →
      (2 * i + 1) ∈
        ((buildGraph classify ps pool indexes).getD (2 * pool.length) default).parents) ∧
    (∀ k, k < (buildGraph classify ps pool indexes).length →
      ((buildGraph classify ps pool indexes).getD k default).role = .aggregate →
      k = 2 * pool.length) ∧
    (∀ k, k < 2 * pool.length →
      Relation.ReflTransGen (dependsOn (buildGraph classify ps pool indexes)) k
        (2 * pool.length)) ∧
    (∀ k, ¬ Relation.TransGen (dependsOn (buildGraph classify ps pool indexes)) k k) := by
  have hchainlen : (taskChain classify indexes pool.enum 0).length = 2 * pool.length := by
    rw [taskChain_length, List.enum_length]
  have hb := buildGraph_eq classify ps pool indexes
  have hlen : (buildGraph classify ps pool indexes).length = 2 * pool.length + 1 := by
    rw [hb, List.length_append, hchainlen]
    rfl
  -- getD inside the chain
  have hgetlt : ∀ k, k < 2 * pool.length →
      (buildGraph classify ps pool indexes).getD k default =
        (taskChain classify indexes pool.enum 0).getD k default := by
    intro k hk
    rw [hb]
    simp only [List.getD_eq_getElem?_getD]
    rw [List.getElem?_append_left (by omega)]
  have hagg : (buildGraph classify ps pool indexes).getD (2 * pool.length) default =
      { role := .aggregate, name := "Magnetic Orderings Analysis",
        payload := Option.none, parents := staticIdxs pool.enum 0,
        parentStructure := some ps } := by
    rw [hb]
    simp only [List.getD_eq_getElem?_getD]
    rw [List.getElem?_append_right (by omega), hchainlen]
    simp
  have henum : ∀ i, i < pool.length →
      pool.enum.getD i (0, default) = (i, pool.getD i default) := by
    intro i hi
    simp only [List.getD_eq_getElem?_getD]
    rw [List.getElem?_enum, List.getElem?_eq_getElem hi]
    rfl
  have hper : ∀ i, i < pool.length →
      ((buildGraph classify ps pool indexes).getD (2 * i) default) =
        relaxNodeOf classify indexes (i, pool.getD i default) ∧
      ((buildGraph classify ps pool indexes).getD (2 * i + 1) default) =
        staticNodeOf classify indexes (i, pool.getD i default) (2 * i) := by
    intro i hi
    have hi' : i < pool.enum.length := by rw [List.enum_length]; omega
    have h := taskChain_getD classify indexes pool.enum 0 i hi'
    rw [henum i hi] at h
    refine ⟨?_, ?_⟩
    · rw [hgetlt (2 * i) (by omega)]
      exact h.1
    · rw [hgetlt (2 * i + 1) (by omega)]
      rw [h.2]
      simp
  -- edges increase the index
  have hedge : ∀ a b, dependsOn (buildGraph classify ps pool indexes) a b → a < b := by
    intro a b hab
    rcases Nat.lt_trichotomy b (2 * pool.length) with hblt | hbeq | hbgt
    · rcases Nat.even_or_odd b with ⟨c, hc⟩ | ⟨c, hc⟩
      · have hb2 : b = 2 * c := by omega
        have hcn : c < pool.length := by omega
        rw [dependsOn, hb2, (hper c hcn).1] at hab
        simp [relaxNodeOf] at hab
      · have hcn : c < pool.length := by omega
        rw [dependsOn, hc, (hper c hcn).2] at hab
        simp [staticNodeOf] at hab
        omega
    · subst hbeq
      rw [dependsOn, hagg] at hab
      simp only at hab
      rcases (staticIdxs_mem pool.enum 0 a).mp hab with ⟨i, hi, rfl⟩
      rw [List.enum_length] at hi
      omega
    · rw [dependsOn] at hab
      have : (buildGraph classify ps pool indexes).getD b default = default := by
        simp only [List.getD_eq_getElem?_getD]
        rw [List.getElem?_eq_none (by omega)]
        rfl
      rw [this] at hab
      simp [default] at hab
  have htrans : ∀ a b, Relation.TransGen
      (dependsOn (buildGraph classify ps pool indexes)) a b → a < b := by
    intro a b h
    induction h with
    | single h => exact hedge _ _ h
    | tail _ hbc ih => exact Nat.lt_trans ih (hedge _ _ hbc)
  refine ⟨hlen, ?_, ?_, ?_, ?_, ?_, ?_, ?_⟩
  · intro i hi
    obtain ⟨h1, h2⟩ := hper i hi
    refine ⟨?_, ?_, ?_, ?_, ?_, ?_⟩
    · rw [h1]; rfl
    · rw [h1]; rfl
    · rw [h1]; rfl
    · rw [h2]; rfl
    · rw [h2]; rfl
    · rw [h2]; rfl
  · rw [hagg]
  · rw [hagg]
  · intro i hi
    rw [hagg]
    apply (staticIdxs_mem pool.enum 0 (2 * i + 1)).mpr
    exact ⟨i, by rw [List.enum_length]; omega, by omega⟩
  · intro k hk hrole
    by_contra hne
    have hklt : k < 2 * pool.length := by omega
    rw [hgetlt k hklt] at hrole
    exact taskChain_role_ne_agg classify indexes pool.enum 0 k
      (by rw [List.enum_length]; omega) hrole
  · intro k hk
    have hstep2 : ∀ c, c < pool.length →
        dependsOn (buildGraph classify ps pool indexes) (2 * c + 1) (2 * pool.length) := by
      intro c hc
      rw [dependsOn, hagg]
      apply (staticIdxs_mem pool.enum 0 (2 * c + 1)).mpr
      exact ⟨c, by rw [List.enum_length]; omega, by omega⟩
    rcases Nat.even_or_odd k with ⟨c, hc⟩ | ⟨c, hc⟩
    · have hk2 : k = 2 * c := by omega
      have hcn : c < pool.length := by omega
      have hstep1 : dependsOn (buildGraph classify ps pool indexes) (2 * c) (2 * c + 1) := by
        rw [dependsOn, (hper c hcn).2]
        simp [staticNodeOf]
      rw [hk2]
      exact Relation.ReflTransGen.head hstep1
        (Relation.ReflTransGen.single (hstep2 c hcn))
    · have hcn : c < pool.length := by omega
      rw [hc]
      exact Relation.ReflTransGen.single (hstep2 c hcn)
  · intro k h
    exact absurd (htrans k k h) (Nat.lt_irrefl k)

theorem graph_invariants_witness :
    ((buildGraph exClassify exPrimitive exDupPool [0, 1, 2]).getD 1 default).role =
      TaskRole.static ∧
    ((buildGraph exClassify exPrimitive exDupPool [0, 1, 2]).getD 1 default).parents =
      [0] := by
  have h := graph_invariants exClassify exPrimitive exDupPool [0, 1, 2]
  exact ⟨(h.2.1 0 (by decide)).2.2.2.1, (h.2.1 0 (by decide)).2.2.2.2.1⟩

/-- C8 counterexample: a *user-supplied* `max_cell_size = 0` is falsy
in python, so the run ignores it and uses the default bound 2 — the
claim says the supplied value is used whenever one is supplied. -/
theorem max_cell_size_zero_ignored :
    computeMaxCellSize (some 0) 2 = .ok 2 ∧
    ((getWfMagneticOrderings exInputC8 (some false) false 10 (some 0)
        Option.none).toOption.getD default).calls.map (·.maxCellSize) = [2] ∧
    (0 : ℤ) ≠ 2 := by
  decide
